/-
  Verification of the aiokafka record codec core (legacy message sets and
  the memory-records batch iterator) against its natural-language
  specification.

  The Python sources `aiokafka/record/memory_records.py`,
  `aiokafka/record/legacy_records.py` and `aiokafka/record/abc.py` are
  embedded shallowly: byte buffers become `List Nat` (each element a byte
  value), big-endian integer framing is explicit, and the kafka-python
  `Message` / `MessageSet` collaborators (external to the repository) are
  modelled from the specification's field layouts.
-/
import Mathlib

set_option maxRecDepth 100000

namespace AiokafkaSpec

/-! ## Byte-level primitives -/

/-- Big-endian unsigned encoding of `n` into `w` bytes (value taken
modulo `256 ^ w`).  Models Python `struct.pack` of unsigned fields and,
for values already reduced modulo `2 ^ (8 * w)`, of signed fields. -/
def uintBE : Nat → Nat → List Nat
  | 0, _ => []
  | w + 1, n => uintBE w (n / 256) ++ [n % 256]

/-- `struct.pack(">i", n)` for a signed 32-bit integer: two's-complement
big-endian bytes. -/
def int32BE (n : Int) : List Nat :=
  uintBE 4 (n % (2 ^ 32)).toNat

/-- `struct.pack(">q", n)` for a signed 64-bit integer: two's-complement
big-endian bytes. -/
def int64BE (n : Int) : List Nat :=
  uintBE 8 (n % (2 ^ 64)).toNat

/-- Read `w` bytes big-endian (unsigned) starting at `pos`. -/
def readUBE (b : List Nat) (pos w : Nat) : Nat :=
  ((b.drop pos).take w).foldl (fun a c => a * 256 + c) 0

/-- `struct.unpack_from(">i", b, pos)`: signed big-endian 32-bit read. -/
def readInt32 (b : List Nat) (pos : Nat) : Int :=
  let u := readUBE b pos 4
  if u < 2 ^ 31 then (u : Int) else (u : Int) - 2 ^ 32

/-- `struct.unpack_from(">q", b, pos)`: signed big-endian 64-bit read. -/
def readInt64 (b : List Nat) (pos : Nat) : Int :=
  let u := readUBE b pos 8
  if u < 2 ^ 63 then (u : Int) else (u : Int) - 2 ^ 64

/-- `struct.unpack_from(">b", b, pos)`: signed 8-bit read. -/
def readInt8 (b : List Nat) (pos : Nat) : Int :=
  let u := b.getD pos 0
  if u < 128 then (u : Int) else (u : Int) - 256

/-- One byte step of the (reflected, polynomial `0xEDB88320`) CRC-32 used
by the legacy message format (`zlib.crc32`). -/
def crc32Byte (crc b : Nat) : Nat :=
  let c := crc ^^^ b
  (List.range 8).foldl
    (fun c _ => if c % 2 = 1 then (c >>> 1) ^^^ 0xEDB88320 else c >>> 1) c

/-- CRC-32 (IEEE / zlib) of a byte list. -/
def crc32 (data : List Nat) : Nat :=
  (data.foldl (fun c b => crc32Byte c b) 0xFFFFFFFF) ^^^ 0xFFFFFFFF

/-! ## MemoryRecords (`aiokafka/record/memory_records.py`)

Constants from the source: `LENGTH_OFFSET = 8`, `LOG_OVERHEAD = 12`,
`MAGIC_OFFSET = 16`, `RECORD_OVERHEAD_V0 = 14`. -/

def LENGTH_OFFSET : Nat := 8
def LOG_OVERHEAD : Nat := 12
def MAGIC_OFFSET : Nat := 16
def RECORD_OVERHEAD_V0 : Nat := 14

/-- Result of `MemoryRecords.next_batch`: the source constructs
`DefaultRecordBatch(buffer)` when the magic byte is ≥ 2 and
`LegacyRecordBatch(buffer, magic)` otherwise. -/
inductive Batch where
  | default (buffer : List Nat)
  | legacy (buffer : List Nat) (magic : Int)
  deriving DecidableEq, Repr

/-- The loop body of `MemoryRecords._split_slices`, translated statement
by statement.  `remaining` is the loop-carried Python variable (assigned
at the top of each iteration); `fuel` bounds the recursion and is always
sufficient when the initial fuel exceeds the buffer length.  An
`Except.error ()` models raising `CorruptRecordException`. -/
def splitLoop (b : List Nat) :
    Nat → Nat → Nat → List (List Nat) → Except Unit (List (List Nat) × Nat)
  | 0, _, remaining, acc => .ok (acc.reverse, remaining)
  | fuel + 1, nextSlice, remaining, acc =>
    if nextSlice = b.length then .ok (acc.reverse, remaining)
    else
      let remaining := b.length - nextSlice
      if remaining ≠ 0 ∧ remaining < LOG_OVERHEAD then .ok (acc.reverse, remaining)
      else
        let length := readInt32 b (nextSlice + LENGTH_OFFSET)
        if length < (RECORD_OVERHEAD_V0 : Int) then .error ()
        else
          let sliceEnd := nextSlice + length.toNat + LOG_OVERHEAD
          if b.length < sliceEnd then .ok (acc.reverse, remaining)
          else
            splitLoop b fuel sliceEnd remaining
              (((b.drop nextSlice).take (sliceEnd - nextSlice)) :: acc)

/-- `MemoryRecords._split_slices`. -/
def splitSlices (b : List Nat) : Except Unit (List (List Nat) × Nat) :=
  splitLoop b (b.length + 1) 0 0 []

/-- The state held by a `MemoryRecords` instance. -/
structure MemoryRecords where
  buffer : List Nat
  slices : List (List Nat)
  remaining : Nat
  nextSlice : Nat
  deriving DecidableEq, Repr

/-- `MemoryRecords.__init__`. -/
def memoryRecordsMk (b : List Nat) : Except Unit MemoryRecords :=
  match splitSlices b with
  | .error e => .error e
  | .ok (slices, remaining) =>
      .ok { buffer := b, slices := slices, remaining := remaining, nextSlice := 0 }

/-- `MemoryRecords.size_in_bytes`. -/
def sizeInBytes (s : MemoryRecords) : Nat := s.buffer.length

/-- `MemoryRecords.valid_bytes`. -/
def validBytes (s : MemoryRecords) : Nat := s.buffer.length - s.remaining

/-- `MemoryRecords.has_next`. -/
def hasNext (s : MemoryRecords) : Bool := s.nextSlice < s.slices.length

/-- `MemoryRecords.next_batch`: returns the produced batch (if any) and
the updated state. -/
def nextBatch (s : MemoryRecords) : Option Batch × MemoryRecords :=
  if h : s.nextSlice < s.slices.length then
    let buffer := s.slices.get ⟨s.nextSlice, h⟩
    let s' := { s with nextSlice := s.nextSlice + 1 }
    let magic := readInt8 buffer MAGIC_OFFSET
    if magic ≥ 2 then (some (.default buffer), s')
    else (some (.legacy buffer magic), s')
  else (none, s)

/-- The batch value `next_batch` constructs for a given slice. -/
def batchFor (buffer : List Nat) : Batch :=
  let magic := readInt8 buffer MAGIC_OFFSET
  if magic ≥ 2 then .default buffer else .legacy buffer magic

/-- Repeatedly calling `next_batch` until exhaustion, collecting the
produced batches in order. -/
def drainFrom (s : MemoryRecords) : Nat → List Batch
  | 0 => []
  | fuel + 1 =>
    match nextBatch s with
    | (none, _) => []
    | (some batch, s') => batch :: drainFrom s' fuel

def drain (s : MemoryRecords) : List Batch :=
  drainFrom s s.slices.length

/-! ## kafka-python `Message` / `MessageSet` collaborators

`legacy_records.py` delegates the per-message wire format to
`kafka.protocol.message.Message` and `MessageSet`, which are external to
the repository. -/

/-- Modelled from the spec: the fixed legacy frame of §4.3
(`CRC:i32 | Magic:i8 | Attributes:i8 | [Timestamp:i64 if magic>=1] |
KeyLen:i32 | Key | ValueLen:i32 | Value`), standing in for the missing
`kafka.protocol.message.Message` encoder.  A null byte string is framed
with length `-1`. -/
def bytesField : Option (List Nat) → List Nat
  | none => int32BE (-1)
  | some b => int32BE b.length ++ b

/-- Modelled from the spec: `Message.encode` for magic 0/1 — the body of
§4.3's frame after the CRC, preceded by the big-endian CRC-32 of that
body. -/
def messageEncode (magic attributes : Nat) (ts : Int)
    (key value : Option (List Nat)) : List Nat :=
  let body := [magic % 256, attributes % 256] ++
    (if magic = 0 then [] else int64BE ts) ++
    bytesField key ++ bytesField value
  uintBE 4 (crc32 body) ++ body

/-- A decoded legacy message (`kafka.protocol.message.Message`).
`timestamp` is `none` for magic 0 (the field is absent on the wire). -/
structure LegMessage where
  crc : Int
  magic : Nat
  attributes : Nat
  timestamp : Option Int
  key : Option (List Nat)
  value : Option (List Nat)
  deriving DecidableEq, Repr

/-- Modelled from the spec: decoding one length-prefixed byte string
(`-1` means null), standing in for kafka-python's `Bytes.decode`.
Returns the decoded field and the rest of the input. -/
def readBytesField (b : List Nat) : Option (Option (List Nat) × List Nat) :=
  if b.length < 4 then none
  else
    let n := readInt32 b 0
    if n < 0 then some (none, b.drop 4)
    else if b.length < 4 + n.toNat then none
    else some (some ((b.drop 4).take n.toNat), b.drop (4 + n.toNat))

/-- Modelled from the spec: `Message.decode` over §4.3's frame for
magic 0/1 (magic values outside {0, 1} fail, as kafka-python's schema
lookup would). -/
def messageDecode (b : List Nat) : Option LegMessage :=
  if b.length < 6 then none
  else
    let crc := readInt32 b 0
    let magic := b.getD 4 0
    let attributes := b.getD 5 0
    if magic = 0 then
      match readBytesField (b.drop 6) with
      | none => none
      | some (key, rest) =>
        match readBytesField rest with
        | none => none
        | some (value, _) =>
          some ⟨crc, 0, attributes, none, key, value⟩
    else if magic = 1 then
      if b.length < 14 then none
      else
        let ts := readInt64 b 6
        match readBytesField (b.drop 14) with
        | none => none
        | some (key, rest) =>
          match readBytesField rest with
          | none => none
          | some (value, _) =>
            some ⟨crc, 1, attributes, some ts, key, value⟩
    else none

/-- Modelled from the spec: the body of `MessageSet.decode` — repeatedly
read `Offset:i64 | MessageSize:i32 | message-bytes` until the region is
exhausted, producing `(offset, message_size, message)` triples.  `fuel`
bounds the recursion (initial fuel beyond the region length always
suffices, since each item consumes at least 12 bytes). -/
def decodeItems : Nat → List Nat → Option (List (Int × Nat × LegMessage))
  | 0, _ => none
  | fuel + 1, b =>
    if b.length = 0 then some []
    else if b.length < 12 then none
    else
      let offset := readInt64 b 0
      let size := readInt32 b 8
      if size < 0 then none
      else if b.length < 12 + size.toNat then none
      else
        match messageDecode ((b.drop 12).take size.toNat) with
        | none => none
        | some m =>
          match decodeItems fuel (b.drop (12 + size.toNat)) with
          | none => none
          | some rest => some ((offset, size.toNat, m) :: rest)

/-- Modelled from the spec: `MessageSet.decode(buffer)` — read the
leading `Int32` total size, then decode that many bytes as items. -/
def messageSetDecode (b : List Nat) : Option (List (Int × Nat × LegMessage)) :=
  if b.length < 4 then none
  else
    let n := readInt32 b 0
    if n < 0 then none
    else decodeItems (b.length + 1) ((b.drop 4).take n.toNat)

/-- `Message.timestamp_type`: `None` for magic 0; otherwise bit 3 of the
attributes selects LOG_APPEND_TIME (1) over CREATE_TIME (0). -/
def timestampType (m : LegMessage) : Option Nat :=
  if m.magic = 0 then none
  else if m.attributes &&& 0x08 ≠ 0 then some 1 else some 0

/-- `Message.is_compressed`: the low three attribute bits are the codec. -/
def isCompressed (m : LegMessage) : Bool :=
  m.attributes &&& 0x07 ≠ 0

/-- Opaque compression codecs supplied by the environment
(`kafka.codec`): the spec treats the algorithms themselves as external. -/
structure Codecs where
  gzip : List Nat → List Nat
  snappy : List Nat → List Nat
  lz4 : List Nat → List Nat
  lz4Old : List Nat → List Nat

/-- `Message.decompress` of the wrapper value, followed by
`MessageSet.decode(raw, bytes_to_read=len(raw))` (no length prefix).
The LZ4 codec again splits on magic as in kafka-python. -/
def decompressMsg (dc : Codecs) (m : LegMessage) :
    Option (List (Int × Nat × LegMessage)) :=
  match m.value with
  | none => none
  | some v =>
    let codec := m.attributes &&& 0x07
    let raw? : Option (List Nat) :=
      if codec = 1 then some (dc.gzip v)
      else if codec = 2 then some (dc.snappy v)
      else if codec = 3 then
        some (if m.magic = 0 then dc.lz4Old v else dc.lz4 v)
      else none
    match raw? with
    | none => none
    | some raw => decodeItems (raw.length + 1) raw

/-! ## LegacyRecordBatchWriter (`aiokafka/record/legacy_records.py`) -/

/-- Modelled from the spec: `MessageSet.HEADER_SIZE` (offset + size =
12 bytes) and `Message.HEADER_SIZE` (crc + magic + attributes +
timestamp + key/value sizes = 22 bytes), the worst-case per-record
overheads used by `_is_full`. -/
def MESSAGE_SET_HEADER_SIZE : Nat := 12

def MESSAGE_HEADER_SIZE : Nat := 22

structure LegacyWriter where
  magic : Nat
  compressionType : Nat
  batchSize : Nat
  buffer : List Nat
  firstMessage : Bool
  deriving DecidableEq, Repr

/-- `LegacyRecordBatchWriter.__init__`: the buffer starts with four
zero bytes reserved for the batch size. -/
def legacyWriterMk (magic compressionType batchSize : Nat) : LegacyWriter :=
  { magic := magic, compressionType := compressionType,
    batchSize := batchSize, buffer := int32BE 0, firstMessage := true }

def optLen : Option (List Nat) → Nat
  | none => 0
  | some b => b.length

/-- `LegacyRecordBatchWriter._is_full`. -/
def isFull (w : LegacyWriter) (key value : Option (List Nat)) : Bool :=
  if w.firstMessage then false
  else
    let needed := MESSAGE_SET_HEADER_SIZE + MESSAGE_HEADER_SIZE +
      optLen key + optLen value
    w.buffer.length + needed > w.batchSize

/-- `LegacyRecordBatchWriter.append`.  `none` models the assertion
failure on non-empty headers; otherwise the returned `Bool` says whether
the record was written. -/
def legacyAppend (w : LegacyWriter) (offset timestamp : Int)
    (key value : Option (List Nat)) (headers : List (List Nat × List Nat)) :
    Option (Bool × LegacyWriter) :=
  if headers ≠ [] then none
  else if isFull w key value then some (false, w)
  else
    let encoded :=
      if w.magic = 0 then messageEncode w.magic 0 0 key value
      else messageEncode w.magic 0 timestamp key value
    some (true,
      { w with
        buffer := w.buffer ++ int64BE offset ++ int32BE encoded.length ++ encoded,
        firstMessage := false })

/-- The codec-selection chain of `_maybe_compress` (source lines 63-71):
gzip for code 1, snappy for code 2 and, for LZ4 (code 3), the
old-kafka variant when magic is 0 and the standard variant otherwise.
`none` models the `NameError` on an unknown nonzero code. -/
def selectCompression (c : Codecs) (compressionType magic : Nat)
    (data : List Nat) : Option (List Nat) :=
  if compressionType = 1 then some (c.gzip data)
  else if compressionType = 2 then some (c.snappy data)
  else if compressionType = 3 then
    some (if magic = 0 then c.lz4Old data else c.lz4 data)
  else none

/-- The compressed records region `_maybe_compress` computes: the codec
chain applied to everything after the 4-byte length prefix. -/
def compressedRegion (c : Codecs) (w : LegacyWriter) : Option (List Nat) :=
  selectCompression c w.compressionType w.magic (w.buffer.drop 4)

/-- The wrapper `Message(compressed, attributes=compression_type,
magic=magic)` built by `_maybe_compress`, encoded: compressed bytes as
value, the compression code as attributes and no key; kafka-python
defaults the wrapper timestamp (never surfaced, since the wrapper's
timestamp type stays CREATE_TIME), modelled here as 0. -/
def wrapperMessage (w : LegacyWriter) (compressed : List Nat) : List Nat :=
  messageEncode w.magic w.compressionType 0 none (some compressed)

/-- `LegacyRecordBatchWriter._maybe_compress`.  The encoded wrapper
replaces the records region only when strictly smaller including its 12
bytes of framing. -/
def maybeCompress (c : Codecs) (w : LegacyWriter) :
    Option (Bool × LegacyWriter) :=
  if w.compressionType ≠ 0 then
    match compressedRegion c w with
    | none => none
    | some compressed =>
      let data := w.buffer.drop 4
      let encoded := wrapperMessage w compressed
      if encoded.length + 12 < data.length then
        some (true,
          { w with buffer :=
              w.buffer.take 4 ++ int64BE 0 ++ int32BE encoded.length ++ encoded })
      else some (false, w)
  else some (false, w)

/-- `LegacyRecordBatchWriter.close`: run `_maybe_compress`, then rewrite
the first four bytes with the length of everything after them. -/
def legacyClose (c : Codecs) (w : LegacyWriter) : Option (List Nat) :=
  match maybeCompress c w with
  | none => none
  | some (_, w') =>
    some (int32BE ((w'.buffer.length : Int) - 4) ++ w'.buffer.drop 4)

/-! ## LegacyRecordBatchReader (`aiokafka/record/legacy_records.py`) -/

/-- A record yielded by `LegacyRecordBatchReader.__iter__`
(`LegacyRecord`). -/
structure LegacyRecord where
  offset : Int
  timestamp : Option Int
  timestampTypeField : Option Nat
  key : Option (List Nat)
  value : Option (List Nat)
  crc : Int
  deriving DecidableEq, Repr

/-- `LegacyRecordBatchReader.__init__`: decode the message set and keep
only `messages[0]` (an empty set fails the `assert`/indexing). -/
def readerInit (b : List Nat) : Option (Int × Nat × LegMessage) :=
  match messageSetDecode b with
  | none => none
  | some items => items.head?

/-- The per-inner-message record construction inside the compressed
branch of `__iter__` (source lines 124-141): the timestamp comes from
the inner message under CREATE_TIME and from the wrapper under
LOG_APPEND_TIME (or is the literal 0 for magic 0), and the base offset
is added only when non-negative. -/
def innerRecord (m : LegMessage) (base : Int) :
    Int × Nat × LegMessage → LegacyRecord
  | (innerOffset, _, innerMsg) =>
    let ts : Option Int :=
      if m.magic > 0 then
        if timestampType m = some 0 then innerMsg.timestamp else m.timestamp
      else some 0
    let off := if base ≥ 0 then innerOffset + base else innerOffset
    { offset := off, timestamp := ts, timestampTypeField := timestampType m,
      key := innerMsg.key, value := innerMsg.value, crc := innerMsg.crc }

/-- The compressed branch of `__iter__` (source lines 114-141), given
the already-decompressed inner message set: for magic > 0 the base is
the wrapper offset minus the last inner offset (failing on an empty
inner set, as `inner_mset[-1]` would); for magic 0 the base is `-1`. -/
def iterCompressed (outerOffset : Int) (m : LegMessage)
    (inner : List (Int × Nat × LegMessage)) : Option (List LegacyRecord) :=
  if m.magic > 0 then
    match inner.getLast? with
    | none => none
    | some (lastOffset, _, _) =>
      some (inner.map (innerRecord m (outerOffset - lastOffset)))
  else some (inner.map (innerRecord m (-1)))

/-- `LegacyRecordBatchReader.__iter__` as a function from the buffer to
the list of yielded records. -/
def readerIterate (dc : Codecs) (b : List Nat) : Option (List LegacyRecord) :=
  match readerInit b with
  | none => none
  | some (offset, _, m) =>
    if isCompressed m then
      match decompressMsg dc m with
      | none => none
      | some inner => iterCompressed offset m inner
    else
      some [{ offset := offset, timestamp := m.timestamp,
              timestampTypeField := timestampType m,
              key := m.key, value := m.value, crc := m.crc }]

/-! ## Spec-side predicates (refinement targets)

These follow the specification's words, to be compared with the
source-translated functions above. -/

/-- Spec-side framing relation (§4.7): starting at cursor `c`, each
slice is `[cursor, cursor + 12 + length)` where `length` is the
big-endian `Int32` read at offset 8 from the cursor, slices appear in
buffer order, and `cEnd` is the cursor after the last slice. -/
inductive SliceChain (b : List Nat) : Nat → List (List Nat) → Nat → Prop where
  | nil (c : Nat) : SliceChain b c [] c
  | cons (c : Nat) (sl : List Nat) (rest : List (List Nat)) (cEnd : Nat) :
      c + 12 ≤ b.length →
      (14 : Int) ≤ readInt32 b (c + 8) →
      c + (readInt32 b (c + 8)).toNat + 12 ≤ b.length →
      sl = (b.drop c).take ((readInt32 b (c + 8)).toNat + 12) →
      SliceChain b (c + (readInt32 b (c + 8)).toNat + 12) rest cEnd →
      SliceChain b c (sl :: rest) cEnd

/-- Spec-side error condition (§4.7): some batch boundary reachable by
whole-batch steps has at least the 12-byte minimum header remaining but
declares a length below the 14-byte minimum record overhead. -/
inductive ErrAt (b : List Nat) : Nat → Prop where
  | here (c : Nat) : c + 12 ≤ b.length → readInt32 b (c + 8) < 14 → ErrAt b c
  | step (c : Nat) : c + 12 ≤ b.length → (14 : Int) ≤ readInt32 b (c + 8) →
      c + (readInt32 b (c + 8)).toNat + 12 ≤ b.length →
      ErrAt b (c + (readInt32 b (c + 8)).toNat + 12) → ErrAt b c

/-- Spec-side description (amended §4.4) of the record yielded for an
inner message of a magic-1 compressed wrapper: offset shifted by the
base `outerOffset - lastOffset` only when that base is non-negative,
timestamp from the inner message under CREATE_TIME and from the wrapper
under LOG_APPEND_TIME. -/
def specCompressedRecordV1 (outerOffset lastOffset : Int) (m : LegMessage) :
    Int × Nat × LegMessage → LegacyRecord := fun item =>
  { offset :=
      if outerOffset - lastOffset ≥ 0 then item.1 + (outerOffset - lastOffset)
      else item.1
    timestamp :=
      if m.attributes &&& 0x08 = 0 then item.2.2.timestamp else m.timestamp
    timestampTypeField := some (if m.attributes &&& 0x08 = 0 then 0 else 1)
    key := item.2.2.key
    value := item.2.2.value
    crc := item.2.2.crc }

/-- Spec-side description (§4.4) of the record yielded for an inner
message of a magic-0 compressed wrapper: offset verbatim, timestamp the
literal 0. -/
def specCompressedRecordV0 : Int × Nat × LegMessage → LegacyRecord := fun item =>
  { offset := item.1
    timestamp := some 0
    timestampTypeField := none
    key := item.2.2.key
    value := item.2.2.value
    crc := item.2.2.crc }

/-! ## Concrete inputs used by the individual claims -/

/-- Identity codecs: a legitimate instantiation of the opaque external
compression functions. -/
def idCodecs : Codecs := ⟨id, id, id, id⟩

/-- `b"test"`. -/
def testB : List Nat := [116, 101, 115, 116]

/-- `b"Super"`. -/
def superB : List Nat := [83, 117, 112, 101, 114]

/-- Writer pipeline for the round-trip claim: magic 0, no compression,
two records appended (both accepted — otherwise `none`), then closed. -/
def c1Close : Option (List Nat) :=
  (legacyAppend (legacyWriterMk 0 0 1000000) 0 9999999 (some testB) (some superB) []).bind
    fun p1 =>
      (legacyAppend p1.2 1 9999999 (some testB) (some superB) []).bind
        fun p2 =>
          if p1.1 ∧ p2.1 then legacyClose idCodecs p2.2 else none

/-- A buffer that is exactly one whole batch: offset 0, declared length
14, and 14 payload bytes — 26 bytes in total. -/
def c2Buf : List Nat := int64BE 0 ++ int32BE 14 ++ List.replicate 14 0

/-- Message body (magic 0, null key, value `b"1"`) whose stored CRC will
deliberately not match. -/
def c9Body : List Nat := [0, 0] ++ int32BE (-1) ++ int32BE 1 ++ [49]

/-- A message-set buffer holding one magic-0 message whose stored CRC is
0, which differs from the CRC-32 of its body. -/
def c9Buf : List Nat := int32BE 27 ++ int64BE 0 ++ int32BE 15 ++ uintBE 4 0 ++ c9Body

/-- The message-set framing plus encoded message that `append` writes
for one record: `Offset:i64 | MessageSize:i32 | message`. -/
def recordBytes (magic : Nat) (offset timestamp : Int)
    (key value : Option (List Nat)) : List Nat :=
  let encoded :=
    if magic = 0 then messageEncode magic 0 0 key value
    else messageEncode magic 0 timestamp key value
  int64BE offset ++ int32BE encoded.length ++ encoded

/-- First 26-byte batch of the two-batch iterator buffer. -/
def c3BatchA : List Nat := int64BE 0 ++ int32BE 14 ++ List.replicate 14 1

/-- Second 26-byte batch of the two-batch iterator buffer. -/
def c3BatchB : List Nat := int64BE 1 ++ int32BE 14 ++ List.replicate 14 2

/-- Two concatenated whole batches. -/
def c3Buf : List Nat := c3BatchA ++ c3BatchB

/-- A 12-byte buffer whose declared batch length is 0, below the
14-byte minimum record overhead. -/
def c4Buf : List Nat := int64BE 0 ++ int32BE 0

/-- An inner (compressed-set) message for the offset-reconstruction
counterexample: magic 1, CREATE_TIME, timestamp 7, value `b"1"`. -/
def c7Inner : LegMessage := ⟨0, 1, 0, some 7, none, some [49]⟩

/-- A compressed wrapper message (magic 1, gzip bit set, CREATE_TIME)
whose offset field is 0, smaller than the last inner relative offset. -/
def c7Wrapper : LegMessage := ⟨0, 1, 1, some 99, none, none⟩

/-! # Theorems -/

/-- C1.  The claimed legacy round-trip law fails on the code: with
magic 0, no compression and batch size 1000000, appending the two
records `(0, b"test", b"Super")` and `(1, b"test", b"Super")` (both
appends accepted, as `c1Close` requires) and re-reading the closed
buffer through `LegacyRecordBatchReader` yields exactly one record —
the reader keeps only `messages[0]` of the decoded message set — instead
of the two appended records. -/
theorem c1_uncompressed_roundtrip_loses_records :
    c1Close.bind (readerIterate idCodecs) =
      some [{ offset := 0, timestamp := none, timestampTypeField := none,
              key := some testB, value := some superB, crc := 278251978 }] ∧
    (c1Close.bind (readerIterate idCodecs)).map List.length ≠ some 2 := by
  constructor
  · rfl
  · decide

/-- C2.  On a buffer that is exactly one whole 26-byte batch,
`MemoryRecords` reports `remaining == 26` (the stale loop-carried value
from `_split_slices`) and `valid_bytes() == 0`, where the claim says
`remaining == 0` and `valid_bytes()` equals the 26 consumed bytes. -/
theorem c2_whole_batch_buffer_remaining_stale :
    memoryRecordsMk c2Buf =
      .ok { buffer := c2Buf, slices := [c2Buf], remaining := 26, nextSlice := 0 } ∧
    (memoryRecordsMk c2Buf).map validBytes = .ok 0 ∧
    c2Buf.length = 26 := by
  refine ⟨rfl, rfl, rfl⟩

/-- C9.  The legacy reader performs no CRC validation during iteration:
on a buffer whose single message stores CRC 0 while the CRC-32 of its
body is 984902598, iteration succeeds and yields the record (carrying
the mismatched stored CRC) instead of failing with `CrcCheckFailed`;
the reader's constructor takes no `validate_crc` flag at all. -/
theorem c9_crc_mismatch_not_detected :
    readerIterate idCodecs c9Buf =
      some [{ offset := 0, timestamp := none, timestampTypeField := none,
              key := none, value := some [49], crc := 0 }] ∧
    crc32 c9Body = 984902598 ∧ (984902598 : Int) ≠ 0 := by
  refine ⟨rfl, rfl, by decide⟩

/-- C5.  Legacy append policy (headers empty): the first record is
always accepted and written, and a subsequent record is rejected with
the state unchanged exactly when the buffer size plus the worst-case
record size (12-byte message-set header + 22-byte message header + key
and value lengths) exceeds the batch size, and written otherwise. -/
theorem c5_append_policy (w : LegacyWriter) (offset timestamp : Int)
    (key value : Option (List Nat)) :
    (w.firstMessage = true →
      legacyAppend w offset timestamp key value [] =
        some (true, { w with
          buffer := w.buffer ++ recordBytes w.magic offset timestamp key value,
          firstMessage := false })) ∧
    (w.firstMessage = false →
      (w.buffer.length + (MESSAGE_SET_HEADER_SIZE + MESSAGE_HEADER_SIZE +
          optLen key + optLen value) > w.batchSize →
        legacyAppend w offset timestamp key value [] = some (false, w)) ∧
      (¬ w.buffer.length + (MESSAGE_SET_HEADER_SIZE + MESSAGE_HEADER_SIZE +
          optLen key + optLen value) > w.batchSize →
        legacyAppend w offset timestamp key value [] =
          some (true, { w with
            buffer := w.buffer ++ recordBytes w.magic offset timestamp key value,
            firstMessage := false }))) := by
  refine ⟨fun hf => ?_, fun hf => ⟨fun hover => ?_, fun hok => ?_⟩⟩
  · simp [legacyAppend, isFull, hf, recordBytes]
  · simp [legacyAppend, isFull, hf, hover]
  · simp [legacyAppend, isFull, hf, hok, recordBytes]

/-- C5 witness: on a fresh writer with batch size 40 the first record
(23 encoded bytes) is accepted; on the resulting state the second
append is rejected unchanged, since 39 + 43 > 40. -/
theorem c5_append_policy_witness :
    legacyAppend (legacyWriterMk 0 0 40) 0 9999999 (some testB) (some superB) [] =
      some (true,
        ⟨0, 0, 40, int32BE 0 ++ recordBytes 0 0 9999999 (some testB) (some superB),
          false⟩) ∧
    legacyAppend
        ⟨0, 0, 40, int32BE 0 ++ recordBytes 0 0 9999999 (some testB) (some superB),
          false⟩ 1 9999999 (some testB) (some superB) [] =
      some (false,
        ⟨0, 0, 40, int32BE 0 ++ recordBytes 0 0 9999999 (some testB) (some superB),
          false⟩) :=
  ⟨(c5_append_policy (legacyWriterMk 0 0 40) 0 9999999 (some testB) (some superB)).1 rfl,
    ((c5_append_policy _ 1 9999999 (some testB) (some superB)).2 rfl).1 (by decide)⟩

/-- C8.  LZ4 codec selection: for compression code 3 the codec chain of
`_maybe_compress` picks `lz4_encode_old_kafka` at magic 0 and standard
`lz4_encode` at magic ≥ 1; `compressedRegion` (the value `close()`
compresses the records region with) follows the same split. -/
theorem c8_lz4_variant_selection (c : Codecs) (d : List Nat) (m : Nat)
    (hm : 1 ≤ m) :
    selectCompression c 3 0 d = some (c.lz4Old d) ∧
    selectCompression c 3 m d = some (c.lz4 d) ∧
    ∀ w : LegacyWriter, w.compressionType = 3 →
      compressedRegion c w =
        some (if w.magic = 0 then c.lz4Old (w.buffer.drop 4)
              else c.lz4 (w.buffer.drop 4)) := by
  refine ⟨by simp [selectCompression], ?_, fun w hw => ?_⟩
  · have hm0 : m ≠ 0 := by omega
    simp [selectCompression, hm0]
  · simp [compressedRegion, hw, selectCompression]

/-- C8 witness at identity codecs, magic 1, data `[1, 2, 3]`. -/
theorem c8_lz4_variant_selection_witness :
    selectCompression idCodecs 3 0 [1, 2, 3] = some (idCodecs.lz4Old [1, 2, 3]) ∧
    selectCompression idCodecs 3 1 [1, 2, 3] = some (idCodecs.lz4 [1, 2, 3]) ∧
    ∀ w : LegacyWriter, w.compressionType = 3 →
      compressedRegion idCodecs w =
        some (if w.magic = 0 then idCodecs.lz4Old (w.buffer.drop 4)
              else idCodecs.lz4 (w.buffer.drop 4)) :=
  c8_lz4_variant_selection idCodecs [1, 2, 3] 1 (by decide)

/-- C10.  Iteration-state invariants of `MemoryRecords`: construction
starts the cursor at 0 (within bounds); `has_next` holds exactly when
the cursor is below the slice count; `next_batch` keeps the cursor in
bounds and the slices fixed; a successful `next_batch` advances the
cursor by exactly one and changes nothing else; an exhausted
`next_batch` returns `none` with the state unchanged; and the empty
buffer yields no slices with `size_in_bytes = valid_bytes = 0`. -/
theorem c10_iterator_state_invariants :
    (∀ b s, memoryRecordsMk b = .ok s →
      s.nextSlice = 0 ∧ s.nextSlice ≤ s.slices.length) ∧
    (∀ s : MemoryRecords, hasNext s = true ↔ s.nextSlice < s.slices.length) ∧
    (∀ s : MemoryRecords, s.nextSlice ≤ s.slices.length →
      (nextBatch s).2.nextSlice ≤ (nextBatch s).2.slices.length) ∧
    (∀ s batch s', nextBatch s = (some batch, s') →
      s'.nextSlice = s.nextSlice + 1 ∧ s'.buffer = s.buffer ∧
        s'.slices = s.slices ∧ s'.remaining = s.remaining) ∧
    (∀ s : MemoryRecords, hasNext s = false → nextBatch s = (none, s)) ∧
    (memoryRecordsMk [] =
        .ok { buffer := [], slices := [], remaining := 0, nextSlice := 0 } ∧
      sizeInBytes { buffer := [], slices := [], remaining := 0, nextSlice := 0 } = 0 ∧
      validBytes { buffer := [], slices := [], remaining := 0, nextSlice := 0 } = 0) := by
  refine ⟨fun b s h => ?_, fun s => ?_, fun s h => ?_, fun s batch s' h => ?_,
    fun s h => ?_, by refine ⟨rfl, rfl, rfl⟩⟩
  · unfold memoryRecordsMk at h
    cases heq : splitSlices b with
    | error e => rw [heq] at h; cases h
    | ok v => rw [heq] at h; cases h; exact ⟨rfl, Nat.zero_le _⟩
  · simp [hasNext]
  · unfold nextBatch
    by_cases hlt : s.nextSlice < s.slices.length
    · simp only [hlt, dif_pos]
      split <;> exact hlt
    · rw [dif_neg hlt]
      exact h
  · unfold nextBatch at h
    by_cases hlt : s.nextSlice < s.slices.length
    · simp only [hlt, dif_pos] at h
      have hs' : s' = { s with nextSlice := s.nextSlice + 1 } := by
        split at h <;> exact (Prod.mk.injEq _ _ _ _ ▸ h).2.symm ▸ rfl
      subst hs'
      exact ⟨rfl, rfl, rfl, rfl⟩
    · simp [hlt] at h
  · have hge : ¬ s.nextSlice < s.slices.length := by
      simpa [hasNext] using h
    simp [nextBatch, hge]

/-- C10 witness: the invariants applied to the concrete construction on
the 26-byte single-batch buffer and the empty-cursor bound. -/
theorem c10_iterator_state_invariants_witness :
    (⟨c2Buf, [c2Buf], 26, 0⟩ : MemoryRecords).nextSlice = 0 ∧
    (⟨c2Buf, [c2Buf], 26, 0⟩ : MemoryRecords).nextSlice ≤
      (⟨c2Buf, [c2Buf], 26, 0⟩ : MemoryRecords).slices.length :=
  c10_iterator_state_invariants.1 c2Buf _ (by rfl)

/-- C7 counterexample.  For a magic-1 compressed wrapper with offset 0
over inner relative offsets `[0, 5]`, the base is `0 - 5 = -5 < 0`, and
the reader yields the inner offsets verbatim (`[0, 5]`) — not
`inner_offset + base` as the claim states, which would give `[-5, 0]`. -/
theorem c7_negative_base_counterexample :
    (iterCompressed 0 c7Wrapper [(0, 0, c7Inner), (5, 0, c7Inner)]).map
        (List.map LegacyRecord.offset) = some [0, 5] ∧
    ([0, 5] : List Int) ≠ [0 + (0 - 5), 5 + (0 - 5)] := by
  refine ⟨rfl, by decide⟩

/-- C7 (amended).  Legacy reader reconstruction of compressed batches:
for magic 1 the base is the wrapper offset minus the last inner
relative offset and each yielded offset is `inner_offset + base` when
that base is non-negative, while a negative base leaves inner offsets
verbatim; for magic 0 inner offsets are always verbatim (with timestamp
the literal 0).  For magic 1, each record's timestamp is the inner
message's own when the wrapper's timestamp type is CREATE_TIME
(attribute bit 3 clear) and the wrapper's when it is LOG_APPEND_TIME. -/
theorem c7_compressed_reconstruction (outerOffset : Int) (m : LegMessage)
    (inner : List (Int × Nat × LegMessage)) :
    (∀ lastOffset sz lm, m.magic = 1 →
      inner.getLast? = some (lastOffset, sz, lm) →
      iterCompressed outerOffset m inner =
        some (inner.map (specCompressedRecordV1 outerOffset lastOffset m))) ∧
    (m.magic = 0 →
      iterCompressed outerOffset m inner =
        some (inner.map specCompressedRecordV0)) := by
  constructor
  · intro lastOffset sz lm hmagic hlast
    have hfn : innerRecord m (outerOffset - lastOffset) =
        specCompressedRecordV1 outerOffset lastOffset m := by
      funext item
      obtain ⟨io, isz, im⟩ := item
      by_cases hbit : m.attributes &&& 0x08 = 0 <;>
        simp [innerRecord, timestampType, specCompressedRecordV1, hmagic, hbit]
    unfold iterCompressed
    rw [hlast]
    simp [hmagic, hfn]
  · intro hmagic
    have hfn : innerRecord m (-1) = specCompressedRecordV0 := by
      funext item
      obtain ⟨io, isz, im⟩ := item
      have hneg : ¬ ((-1 : Int) ≥ 0) := by decide
      simp [innerRecord, timestampType, specCompressedRecordV0, hmagic, hneg]
    unfold iterCompressed
    simp [hmagic, hfn]

/-- C7 witness: the amended reconstruction applied to a concrete
magic-1 wrapper at outer offset 9 over inner offsets `[0, 5]` (base
`9 - 5 = 4 ≥ 0`, CREATE_TIME). -/
theorem c7_compressed_reconstruction_witness :
    iterCompressed 9 c7Wrapper [(0, 0, c7Inner), (5, 0, c7Inner)] =
      some ([(0, 0, c7Inner), (5, 0, c7Inner)].map
        (specCompressedRecordV1 9 5 c7Wrapper)) :=
  (c7_compressed_reconstruction 9 c7Wrapper [(0, 0, c7Inner), (5, 0, c7Inner)]).1
    5 0 c7Inner rfl rfl

theorem uintBE_length (w : Nat) : ∀ n, (uintBE w n).length = w := by
  induction w with
  | zero => intro n; rfl
  | succ w ih => intro n; simp [uintBE, ih]

theorem uintBE_foldl (w : Nat) : ∀ n acc, n < 256 ^ w →
    (uintBE w n).foldl (fun a c => a * 256 + c) acc = acc * 256 ^ w + n := by
  induction w with
  | zero =>
    intro n acc h
    have hn : n = 0 := by omega
    simp [uintBE, hn]
  | succ w ih =>
    intro n acc h
    have hdiv : n / 256 < 256 ^ w := by
      apply Nat.div_lt_of_lt_mul
      calc n < 256 ^ (w + 1) := h
        _ = 256 * 256 ^ w := by ring
    rw [uintBE, List.foldl_append, ih _ _ hdiv]
    simp only [List.foldl_cons, List.foldl_nil]
    conv_rhs => rw [← Nat.div_add_mod n 256]
    ring

theorem readUBE_uintBE (w n : Nat) (rest : List Nat) (h : n < 256 ^ w) :
    readUBE (uintBE w n ++ rest) 0 w = n := by
  unfold readUBE
  rw [List.drop_zero, List.take_left' (uintBE_length w n), uintBE_foldl w n 0 h]
  simp

theorem int32BE_ofNat (n : Nat) (h : n < 2 ^ 32) : int32BE (n : Int) = uintBE 4 n := by
  unfold int32BE
  congr 1
  rw [Int.emod_eq_of_lt (by positivity) (by exact_mod_cast h)]
  exact Int.toNat_natCast n

theorem int32BE_length (k : Int) : (int32BE k).length = 4 :=
  uintBE_length 4 _

theorem int64BE_length (k : Int) : (int64BE k).length = 8 :=
  uintBE_length 8 _

theorem readInt32_front (n : Nat) (rest : List Nat) (h : n < 2 ^ 31) :
    readInt32 (int32BE (n : Int) ++ rest) 0 = (n : Int) := by
  have h32 : n < 2 ^ 32 := by
    have : (2 : Nat) ^ 31 < 2 ^ 32 := by norm_num
    omega
  have h256 : n < 256 ^ 4 := by
    have : (256 : Nat) ^ 4 = 2 ^ 32 := by norm_num
    omega
  unfold readInt32
  rw [int32BE_ofNat n h32, readUBE_uintBE 4 n rest h256]
  have h' : n < 2147483648 := by omega
  simp [h']

theorem readInt32_prefixed_length (k : Nat) (rest : List Nat)
    (hk : rest.length = k) (hb : k < 2 ^ 31) :
    readInt32 (int32BE (k : Int) ++ rest) 0 =
      ((int32BE (k : Int) ++ rest).length : Int) - 4 := by
  rw [readInt32_front k rest hb]
  simp only [List.length_append, int32BE_length, hk]
  push_cast
  ring

/-- C6.  Legacy close policy: with a compression type configured, the
records region (everything after the 4-byte prefix) is replaced by the
framed wrapper — offset 0, the wrapper's encoded length, the encoded
wrapper itself — exactly when the encoded wrapper plus its 12 framing
bytes is strictly smaller than the region, and is kept as-is otherwise;
and in every case the leading 4-byte prefix of the returned buffer
decodes to the byte count of everything after it. -/
theorem c6_close_policy (c : Codecs) (w : LegacyWriter)
    (h4 : 4 ≤ w.buffer.length) (hbound : w.buffer.length ≤ 2 ^ 31)
    (hct : w.compressionType ≤ 3) :
    ∃ out, legacyClose c w = some out ∧
      readInt32 out 0 = (out.length : Int) - 4 ∧
      ∀ compressed, w.compressionType ≠ 0 →
        compressedRegion c w = some compressed →
        ((wrapperMessage w compressed).length + 12 < (w.buffer.drop 4).length →
          out = int32BE ((12 + (wrapperMessage w compressed).length : Nat) : Int) ++
            (int64BE 0 ++ (int32BE ((wrapperMessage w compressed).length : Int) ++
              wrapperMessage w compressed))) ∧
        (¬ (wrapperMessage w compressed).length + 12 < (w.buffer.drop 4).length →
          out = int32BE ((w.buffer.length - 4 : Nat) : Int) ++ w.buffer.drop 4) := by
  have hdroplen : (w.buffer.drop 4).length = w.buffer.length - 4 := by
    simp
  have hcastlen : ((w.buffer.length : Int) - 4) = ((w.buffer.length - 4 : Nat) : Int) := by
    omega
  have huncLen : (int32BE ((w.buffer.length - 4 : Nat) : Int) ++ w.buffer.drop 4).length =
      4 + (w.buffer.length - 4) := by
    simp [int32BE_length]
  have huncRead : readInt32 (int32BE ((w.buffer.length - 4 : Nat) : Int) ++ w.buffer.drop 4) 0 =
      ((int32BE ((w.buffer.length - 4 : Nat) : Int) ++ w.buffer.drop 4).length : Int) - 4 :=
    readInt32_prefixed_length (w.buffer.length - 4) _ hdroplen (by omega)
  by_cases h0 : w.compressionType = 0
  · refine ⟨int32BE ((w.buffer.length - 4 : Nat) : Int) ++ w.buffer.drop 4, ?_, huncRead, ?_⟩
    · simp only [legacyClose, maybeCompress, h0, ne_eq, not_true_eq_false, if_false,
        ite_false]
      rw [hcastlen]
    · intro compressed hne _
      exact absurd h0 hne
  · obtain ⟨comp, hcr⟩ : ∃ comp, compressedRegion c w = some comp := by
      rcases (by omega : w.compressionType = 1 ∨ w.compressionType = 2 ∨
          w.compressionType = 3) with h | h | h <;>
        simp [compressedRegion, selectCompression, h]
    by_cases hlt : (wrapperMessage w comp).length + 12 < (w.buffer.drop 4).length
    · have htake4 : (w.buffer.take 4).length = 4 := by
        simp [List.length_take]
        omega
      have hnew : (w.buffer.take 4 ++ int64BE 0 ++
            int32BE ((wrapperMessage w comp).length : Int) ++ wrapperMessage w comp) =
          w.buffer.take 4 ++ (int64BE 0 ++
            (int32BE ((wrapperMessage w comp).length : Int) ++ wrapperMessage w comp)) := by
        simp [List.append_assoc]
      have hrestlen : (int64BE 0 ++ (int32BE ((wrapperMessage w comp).length : Int) ++
            wrapperMessage w comp)).length = 12 + (wrapperMessage w comp).length := by
        simp [int64BE_length, int32BE_length]
        ring
      have hnewlen : (w.buffer.take 4 ++ int64BE 0 ++
            int32BE ((wrapperMessage w comp).length : Int) ++
            wrapperMessage w comp).length = 16 + (wrapperMessage w comp).length := by
        rw [hnew]
        simp only [List.length_append, htake4, hrestlen]
        omega
      have hdropnew : (w.buffer.take 4 ++ int64BE 0 ++
            int32BE ((wrapperMessage w comp).length : Int) ++
            wrapperMessage w comp).drop 4 =
          int64BE 0 ++ (int32BE ((wrapperMessage w comp).length : Int) ++
            wrapperMessage w comp) := by
        rw [hnew]
        exact List.drop_left' htake4
      have hmc : maybeCompress c w = some (true, { w with
          buffer := w.buffer.take 4 ++ int64BE 0 ++
            int32BE ((wrapperMessage w comp).length : Int) ++ wrapperMessage w comp }) := by
        unfold maybeCompress
        rw [if_pos h0, hcr]
        dsimp only
        rw [if_pos hlt]
      have hout : legacyClose c w =
          some (int32BE ((12 + (wrapperMessage w comp).length : Nat) : Int) ++
            (int64BE 0 ++ (int32BE (((wrapperMessage w comp).length : Nat) : Int) ++
              wrapperMessage w comp))) := by
        have hcast2 : ((16 + (wrapperMessage w comp).length : Nat) : Int) - 4 =
            ((12 + (wrapperMessage w comp).length : Nat) : Int) := by
          omega
        unfold legacyClose
        rw [hmc]
        dsimp only
        rw [hdropnew, hnewlen, hcast2]
      refine ⟨_, hout, ?_, ?_⟩
      · have hbnd : 12 + (wrapperMessage w comp).length < 2 ^ 31 := by
          rw [hdroplen] at hlt
          omega
        exact readInt32_prefixed_length (12 + (wrapperMessage w comp).length) _
          hrestlen hbnd
      · intro compressed' hne hcr'
        rw [hcr] at hcr'
        cases hcr'
        exact ⟨fun _ => rfl, fun hc => absurd hlt hc⟩
    · have hmc : maybeCompress c w = some (false, w) := by
        unfold maybeCompress
        rw [if_pos h0, hcr]
        dsimp only
        rw [if_neg hlt]
      have hout : legacyClose c w =
          some (int32BE ((w.buffer.length - 4 : Nat) : Int) ++ w.buffer.drop 4) := by
        unfold legacyClose
        rw [hmc]
        dsimp only
        rw [hcastlen]
      refine ⟨_, hout, huncRead, ?_⟩
      · intro compressed' hne hcr'
        rw [hcr] at hcr'
        cases hcr'
        exact ⟨fun hc => absurd hc hlt, fun _ => rfl⟩

/-- C6 witness: the close policy applied to a concrete gzip-configured
writer whose buffer holds the 4-byte prefix and 30 payload bytes. -/
theorem c6_close_policy_witness :
    ∃ out,
      legacyClose idCodecs
        ⟨0, 1, 1000, int32BE 0 ++ List.replicate 30 7, false⟩ = some out ∧
      readInt32 out 0 = (out.length : Int) - 4 ∧
      ∀ compressed,
        (⟨0, 1, 1000, int32BE 0 ++ List.replicate 30 7, false⟩ :
            LegacyWriter).compressionType ≠ 0 →
        compressedRegion idCodecs
            ⟨0, 1, 1000, int32BE 0 ++ List.replicate 30 7, false⟩ = some compressed →
        ((wrapperMessage ⟨0, 1, 1000, int32BE 0 ++ List.replicate 30 7, false⟩
              compressed).length + 12 <
            ((⟨0, 1, 1000, int32BE 0 ++ List.replicate 30 7, false⟩ :
              LegacyWriter).buffer.drop 4).length →
          out = int32BE ((12 + (wrapperMessage
              ⟨0, 1, 1000, int32BE 0 ++ List.replicate 30 7, false⟩
              compressed).length : Nat) : Int) ++
            (int64BE 0 ++ (int32BE ((wrapperMessage
                ⟨0, 1, 1000, int32BE 0 ++ List.replicate 30 7, false⟩
                compressed).length : Int) ++
              wrapperMessage ⟨0, 1, 1000, int32BE 0 ++ List.replicate 30 7, false⟩
                compressed))) ∧
        (¬ (wrapperMessage ⟨0, 1, 1000, int32BE 0 ++ List.replicate 30 7, false⟩
              compressed).length + 12 <
            ((⟨0, 1, 1000, int32BE 0 ++ List.replicate 30 7, false⟩ :
              LegacyWriter).buffer.drop 4).length →
          out = int32BE ((((⟨0, 1, 1000, int32BE 0 ++ List.replicate 30 7, false⟩ :
              LegacyWriter).buffer.length - 4 : Nat) : Int)) ++
            (⟨0, 1, 1000, int32BE 0 ++ List.replicate 30 7, false⟩ :
              LegacyWriter).buffer.drop 4) :=
  c6_close_policy idCodecs ⟨0, 1, 1000, int32BE 0 ++ List.replicate 30 7, false⟩
    (by decide) (by decide) (by decide)

theorem splitLoop_succ (b : List Nat) (fuel nextSlice remaining : Nat)
    (acc : List (List Nat)) :
    splitLoop b (fuel + 1) nextSlice remaining acc =
      if nextSlice = b.length then .ok (acc.reverse, remaining)
      else if b.length - nextSlice ≠ 0 ∧ b.length - nextSlice < 12 then
        .ok (acc.reverse, b.length - nextSlice)
      else if readInt32 b (nextSlice + 8) < 14 then .error ()
      else if b.length < nextSlice + (readInt32 b (nextSlice + 8)).toNat + 12 then
        .ok (acc.reverse, b.length - nextSlice)
      else
        splitLoop b fuel (nextSlice + (readInt32 b (nextSlice + 8)).toNat + 12)
          (b.length - nextSlice)
          (((b.drop nextSlice).take
              ((nextSlice + (readInt32 b (nextSlice + 8)).toNat + 12) - nextSlice)) ::
            acc) := rfl

theorem splitLoop_ok (b : List Nat) : ∀ fuel c r0 acc sl r,
    c ≤ b.length → b.length - c < fuel →
    splitLoop b fuel c r0 acc = .ok (sl, r) →
    ∃ suffix cEnd, sl = acc.reverse ++ suffix ∧ SliceChain b c suffix cEnd ∧
      (cEnd = b.length ∨
        (cEnd < b.length ∧ r = b.length - cEnd ∧
          (b.length - cEnd < 12 ∨
            ((14 : Int) ≤ readInt32 b (cEnd + 8) ∧
              b.length < cEnd + (readInt32 b (cEnd + 8)).toNat + 12)))) := by
  intro fuel
  induction fuel with
  | zero =>
    intro c r0 acc sl r hc hfuel heq
    exact absurd hfuel (Nat.not_lt_zero _)
  | succ fuel ih =>
    intro c r0 acc sl r hc hfuel heq
    rw [splitLoop_succ] at heq
    by_cases h1 : c = b.length
    · rw [if_pos h1] at heq
      cases heq
      exact ⟨[], c, by simp, SliceChain.nil c, Or.inl h1⟩
    · rw [if_neg h1] at heq
      by_cases h2 : b.length - c ≠ 0 ∧ b.length - c < 12
      · rw [if_pos h2] at heq
        cases heq
        exact ⟨[], c, by simp, SliceChain.nil c,
          Or.inr ⟨by omega, rfl, Or.inl h2.2⟩⟩
      · rw [if_neg h2] at heq
        by_cases h3 : readInt32 b (c + 8) < 14
        · rw [if_pos h3] at heq
          cases heq
        · rw [if_neg h3] at heq
          by_cases h4 : b.length < c + (readInt32 b (c + 8)).toNat + 12
          · rw [if_pos h4] at heq
            cases heq
            exact ⟨[], c, by simp, SliceChain.nil c,
              Or.inr ⟨by omega, rfl, Or.inr ⟨by omega, h4⟩⟩⟩
          · rw [if_neg h4] at heq
            have h14 : (14 : Int) ≤ readInt32 b (c + 8) := by omega
            have hT : 14 ≤ (readInt32 b (c + 8)).toNat := by omega
            have hend : c + (readInt32 b (c + 8)).toNat + 12 ≤ b.length := by omega
            obtain ⟨suffix, cEnd, hsl, hchain, hdisj⟩ :=
              ih (c + (readInt32 b (c + 8)).toNat + 12) (b.length - c)
                (((b.drop c).take
                    ((c + (readInt32 b (c + 8)).toNat + 12) - c)) :: acc)
                sl r (by omega) (by omega) heq
            have harg : (c + (readInt32 b (c + 8)).toNat + 12) - c =
                (readInt32 b (c + 8)).toNat + 12 := by omega
            rw [harg] at hsl
            refine ⟨((b.drop c).take ((readInt32 b (c + 8)).toNat + 12)) :: suffix,
              cEnd, ?_, ?_, hdisj⟩
            · rw [hsl, List.reverse_cons, List.append_assoc]
              simp
            · exact SliceChain.cons c _ suffix cEnd (by omega) h14 hend rfl hchain

theorem splitLoop_error_iff (b : List Nat) : ∀ fuel c r0 acc,
    c ≤ b.length → b.length - c < fuel →
    (splitLoop b fuel c r0 acc = .error () ↔ ErrAt b c) := by
  intro fuel
  induction fuel with
  | zero =>
    intro c r0 acc hc hfuel
    exact absurd hfuel (Nat.not_lt_zero _)
  | succ fuel ih =>
    intro c r0 acc hc hfuel
    rw [splitLoop_succ]
    by_cases h1 : c = b.length
    · rw [if_pos h1]
      constructor
      · intro h
        simp at h
      · intro h
        exfalso
        rcases h with ⟨h12, hlt⟩ | ⟨h12, h14, hend, h⟩ <;> omega
    · rw [if_neg h1]
      by_cases h2 : b.length - c ≠ 0 ∧ b.length - c < 12
      · rw [if_pos h2]
        constructor
        · intro h
          simp at h
        · intro h
          exfalso
          rcases h with ⟨h12, hlt⟩ | ⟨h12, h14, hend, h⟩ <;> omega
      · rw [if_neg h2]
        by_cases h3 : readInt32 b (c + 8) < 14
        · rw [if_pos h3]
          constructor
          · intro _
            exact ErrAt.here c (by omega) h3
          · intro _
            rfl
        · rw [if_neg h3]
          by_cases h4 : b.length < c + (readInt32 b (c + 8)).toNat + 12
          · rw [if_pos h4]
            constructor
            · intro h
              simp at h
            · intro h
              exfalso
              rcases h with ⟨h12, hlt⟩ | ⟨h12, h14, hend, h⟩ <;> omega
          · rw [if_neg h4]
            have h14 : (14 : Int) ≤ readInt32 b (c + 8) := by omega
            have hend : c + (readInt32 b (c + 8)).toNat + 12 ≤ b.length := by omega
            rw [ih (c + (readInt32 b (c + 8)).toNat + 12) (b.length - c)
              (((b.drop c).take
                  ((c + (readInt32 b (c + 8)).toNat + 12) - c)) :: acc)
              (by omega) (by omega)]
            constructor
            · intro h
              exact ErrAt.step c (by omega) h14 hend h
            · intro h
              cases h with
              | here h12 hlt => omega
              | step h12 h14x hendx hrec hrec' => exact hrec'

theorem nextBatch_pos (s : MemoryRecords) (h : s.nextSlice < s.slices.length) :
    nextBatch s = (some (batchFor (s.slices.get ⟨s.nextSlice, h⟩)),
      { s with nextSlice := s.nextSlice + 1 }) := by
  unfold nextBatch batchFor
  rw [dif_pos h]
  dsimp only
  split
  next => rfl
  next => rfl

theorem drainFrom_map (buffer : List Nat) (rem : Nat) (slices : List (List Nat)) :
    ∀ n k, slices.length - k = n →
      drainFrom ⟨buffer, slices, rem, k⟩ n = (slices.drop k).map batchFor := by
  intro n
  induction n with
  | zero =>
    intro k hk
    have hnil : slices.drop k = [] := List.drop_eq_nil_of_le (by omega)
    simp [drainFrom, hnil]
  | succ n ih =>
    intro k hk
    have hklt : k < slices.length := by omega
    rw [drainFrom, nextBatch_pos ⟨buffer, slices, rem, k⟩ hklt]
    dsimp only
    rw [ih (k + 1) (by omega), List.drop_eq_getElem_cons hklt, List.map_cons]
    rfl

/-- C3.  The batch iterator splits its buffer into slices
`[cursor, cursor + 12 + length)` framed by the big-endian `Int32` read
at offset 8 from each cursor (the `SliceChain` relation), produces the
batches in buffer order, and dispatches each slice on the signed magic
byte at offset 16: a default-format batch when magic ≥ 2 and a legacy
batch (carrying the magic) otherwise. -/
theorem c3_slicing_and_dispatch (b : List Nat) (s : MemoryRecords)
    (h : memoryRecordsMk b = .ok s) :
    (∃ cEnd, SliceChain b 0 s.slices cEnd) ∧
    drain s = s.slices.map batchFor ∧
    ∀ sl : List Nat,
      ((2 : Int) ≤ readInt8 sl MAGIC_OFFSET → batchFor sl = .default sl) ∧
      (readInt8 sl MAGIC_OFFSET < 2 →
        batchFor sl = .legacy sl (readInt8 sl MAGIC_OFFSET)) := by
  obtain ⟨slices, rem, hsplit, hs⟩ :
      ∃ slices rem, splitSlices b = .ok (slices, rem) ∧
        s = ⟨b, slices, rem, 0⟩ := by
    unfold memoryRecordsMk at h
    cases heq : splitSlices b with
    | error e => rw [heq] at h; cases h
    | ok v =>
      rw [heq] at h
      cases h
      exact ⟨v.1, v.2, rfl, rfl⟩
  subst hs
  refine ⟨?_, ?_, ?_⟩
  · obtain ⟨suffix, cEnd, hsl, hchain, _⟩ :=
      splitLoop_ok b (b.length + 1) 0 0 [] slices rem (Nat.zero_le _)
        (by omega) hsplit
    simp only [List.reverse_nil, List.nil_append] at hsl
    exact ⟨cEnd, hsl ▸ hchain⟩
  · show drain ⟨b, slices, rem, 0⟩ = slices.map batchFor
    unfold drain
    have := drainFrom_map b rem slices slices.length 0 (by omega)
    simpa using this
  · intro sl
    constructor
    · intro hm
      unfold batchFor
      rw [if_pos hm]
    · intro hm
      unfold batchFor
      rw [if_neg (by omega)]

/-- C3 witness: the slicing and dispatch facts instantiated on the
concrete two-batch buffer `c3Buf`. -/
theorem c3_slicing_and_dispatch_witness :
    (∃ cEnd, SliceChain c3Buf 0
      (⟨c3Buf, [c3BatchA, c3BatchB], 26, 0⟩ : MemoryRecords).slices cEnd) ∧
    drain ⟨c3Buf, [c3BatchA, c3BatchB], 26, 0⟩ =
      (⟨c3Buf, [c3BatchA, c3BatchB], 26, 0⟩ : MemoryRecords).slices.map batchFor ∧
    ∀ sl : List Nat,
      ((2 : Int) ≤ readInt8 sl MAGIC_OFFSET → batchFor sl = .default sl) ∧
      (readInt8 sl MAGIC_OFFSET < 2 →
        batchFor sl = .legacy sl (readInt8 sl MAGIC_OFFSET)) :=
  c3_slicing_and_dispatch c3Buf ⟨c3Buf, [c3BatchA, c3BatchB], 26, 0⟩ (by rfl)

/-- C4.  `MemoryRecords` construction fails with `CorruptRecord`
exactly when some reachable batch boundary has at least the 12-byte
minimum header remaining but declares an `Int32` length below the
14-byte minimum record overhead (`ErrAt`); a successful split always
ends either exactly at the buffer end or at a truncated tail — fewer
than 12 bytes left, or a declared length overrunning the buffer — whose
byte count is what `remaining` reports. -/
theorem c4_corrupt_vs_truncation (b : List Nat) :
    (splitSlices b = .error () ↔ ErrAt b 0) ∧
    (∀ sl r, splitSlices b = .ok (sl, r) →
      ∃ cEnd, SliceChain b 0 sl cEnd ∧
        (cEnd = b.length ∨
          (cEnd < b.length ∧ r = b.length - cEnd ∧
            (b.length - cEnd < 12 ∨
              ((14 : Int) ≤ readInt32 b (cEnd + 8) ∧
                b.length < cEnd + (readInt32 b (cEnd + 8)).toNat + 12))))) := by
  constructor
  · exact splitLoop_error_iff b (b.length + 1) 0 0 [] (Nat.zero_le _) (by omega)
  · intro sl r h
    obtain ⟨suffix, cEnd, hsl, hchain, hdisj⟩ :=
      splitLoop_ok b (b.length + 1) 0 0 [] sl r (Nat.zero_le _) (by omega) h
    simp only [List.reverse_nil, List.nil_append] at hsl
    exact ⟨cEnd, hsl ▸ hchain, hdisj⟩

/-- C4 witness: the 12-byte buffer declaring length 0 is rejected, so
the spec-side error condition holds at its first boundary. -/
theorem c4_corrupt_vs_truncation_witness : ErrAt c4Buf 0 :=
  (c4_corrupt_vs_truncation c4Buf).1.mp (by rfl)

end AiokafkaSpec
